import Mathlib

/-!
Shallow embedding of `src/app.py` (video compression / delivery orchestrator).

Modelling conventions:
* A job record is the flat dictionary built in `receive_video` (lines 338-345):
  fields `status`, `file_path`, `compressed_path`, `created_at`, `video_id`,
  `org_id`.  `status` is an arbitrary string because the exception path of
  `background_process_video` writes `"failed: " ++ message` (line 274).
* Timestamps (`time.time()`) are modelled as `Nat` seconds.
* The Redis backend stores a JSON blob under the namespaced key
  `"job:" ++ video_id` (lines 89-93).  JSON serialisation of the flat record
  round-trips, so the blob is modelled as the record itself under that key.
  The `setex` TTL is Redis-side expiration and is outside the per-operation
  semantics compared here (the spec sets TTL expiry aside as well).
* Python dicts are modelled as association lists with first-key-wins lookup
  and in-place overwrite, mirroring unique-key dict behaviour.
* `extra_fields` of `update_status` (line 109) is a dict merged into the
  record with `dict.update`; the code only ever passes record fields, so it
  is modelled as per-field optional overrides.
-/

namespace VideoCompress

/-- The job record dictionary created at `src/app.py` lines 338-345. -/
structure JobRecord where
  status : String
  file_path : String
  compressed_path : String
  created_at : Nat
  video_id : String
  org_id : String
deriving Repr, DecidableEq, Inhabited

/-- The `extra_fields` dict of `JobManager.update_status`: optional overrides
merged into the record by `dict.update` (lines 121-122, 128-129). -/
structure ExtraFields where
  status? : Option String := none
  file_path? : Option String := none
  compressed_path? : Option String := none
  created_at? : Option Nat := none
  video_id? : Option String := none
  org_id? : Option String := none
deriving Repr, DecidableEq

/-- `data.update(extra_fields)`: every key present in `extra_fields`
overwrites the corresponding record field. -/
def ExtraFields.apply (e : ExtraFields) (r : JobRecord) : JobRecord :=
  { status := e.status?.getD r.status
    file_path := e.file_path?.getD r.file_path
    compressed_path := e.compressed_path?.getD r.compressed_path
    created_at := e.created_at?.getD r.created_at
    video_id := e.video_id?.getD r.video_id
    org_id := e.org_id?.getD r.org_id }

/-- A Python dict from string keys to job records, as an association list
with unique keys maintained by `storeSet`. -/
abbrev Store := List (String × JobRecord)

/-- Dict lookup `d.get(k)`. -/
def storeGet (s : Store) (k : String) : Option JobRecord :=
  match s with
  | [] => none
  | (k1, v) :: rest => if k1 = k then some v else storeGet rest k

/-- Dict assignment `d[k] = v` (overwrite in place, append if new). -/
def storeSet (s : Store) (k : String) (v : JobRecord) : Store :=
  match s with
  | [] => [(k, v)]
  | (k1, v1) :: rest =>
    if k1 = k then (k1, v) :: rest else (k1, v1) :: storeSet rest k v

/-- Dict deletion `del d[k]` (removes every binding of `k`; on dicts with
unique keys this is the single binding). -/
def storeErase (s : Store) (k : String) : Store :=
  match s with
  | [] => []
  | (k1, v1) :: rest =>
    if k1 = k then storeErase rest k else (k1, v1) :: storeErase rest k

/-- Default of env var `INTERNAL_SERVICE_KEY` (line 49). -/
def INTERNAL_SERVICE_KEY : String := "my-secret-key"

/-- `VIDEO_DIR` (line 44). -/
def VIDEO_DIR : String := "temp_videos"

/-- `MAX_VIDEO_SIZE_MB` (line 53). -/
def MAX_VIDEO_SIZE_MB : Nat := 500

/-- `ALLOWED_VIDEO_EXTENSIONS` (line 54). -/
def ALLOWED_VIDEO_EXTENSIONS : List String := [".mp4", ".mov", ".mkv", ".avi"]

/-- The namespaced Redis key `f"job:\x7bvideo_id\x7d"` (lines 90, 100, 116, 133). -/
def redisKey (video_id : String) : String := "job:" ++ video_id

namespace Memory

/-- Memory branch of `JobManager.set_job` (lines 94-96): plain dict write
under the lock. -/
def set_job (m : Store) (video_id : String) (data : JobRecord) : Store :=
  storeSet m video_id data

/-- Memory branch of `JobManager.get_job` (lines 104-107): returns a copy of
the stored dict, or `None` when absent (value-level: the lookup). -/
def get_job (m : Store) (video_id : String) : Option JobRecord :=
  storeGet m video_id

/-- Memory branch of `JobManager.update_status` (lines 124-129): if the key
is present, set `status` then merge `extra_fields`; silently no-op otherwise. -/
def update_status (m : Store) (video_id : String) (status : String)
    (extra_fields : ExtraFields) : Store :=
  match storeGet m video_id with
  | none => m
  | some data => storeSet m video_id (extra_fields.apply { data with status := status })

/-- Memory branch of `JobManager.delete_job` (lines 134-137). -/
def delete_job (m : Store) (video_id : String) : Store :=
  storeErase m video_id

end Memory

namespace Redis

/-- Redis branch of `JobManager.set_job` (lines 87-93): `setex` of the
serialised record under the namespaced key. -/
def set_job (r : Store) (video_id : String) (data : JobRecord) : Store :=
  storeSet r (redisKey video_id) data

/-- Redis branch of `JobManager.get_job` (lines 99-103): `get` of the
namespaced key, deserialised. -/
def get_job (r : Store) (video_id : String) : Option JobRecord :=
  storeGet r (redisKey video_id)

/-- Redis branch of `JobManager.update_status` (lines 115-123):
read-modify-write of the blob; silently no-op when the key is absent. -/
def update_status (r : Store) (video_id : String) (status : String)
    (extra_fields : ExtraFields) : Store :=
  match storeGet r (redisKey video_id) with
  | none => r
  | some data =>
    storeSet r (redisKey video_id) (extra_fields.apply { data with status := status })

/-- Redis branch of `JobManager.delete_job` (lines 132-133). -/
def delete_job (r : Store) (video_id : String) : Store :=
  storeErase r (redisKey video_id)

end Redis

/-- One Job Store operation of the contract
`put / get / updateStatus / delete`. -/
inductive StoreOp where
  | put (video_id : String) (data : JobRecord)
  | get (video_id : String)
  | updateStatus (video_id status : String) (extra_fields : ExtraFields)
  | del (video_id : String)
deriving Repr

/-- Run one operation against the memory backend: new store plus the
observable result (`get` returns the record, mutators return nothing). -/
def memStep (m : Store) : StoreOp → Store × Option JobRecord
  | .put vid d => (Memory.set_job m vid d, none)
  | .get vid => (m, Memory.get_job m vid)
  | .updateStatus vid st e => (Memory.update_status m vid st e, none)
  | .del vid => (Memory.delete_job m vid, none)

/-- Run one operation against the Redis backend. -/
def redisStep (r : Store) : StoreOp → Store × Option JobRecord
  | .put vid d => (Redis.set_job r vid d, none)
  | .get vid => (r, Redis.get_job r vid)
  | .updateStatus vid st e => (Redis.update_status r vid st e, none)
  | .del vid => (Redis.delete_job r vid, none)

/-- Run a sequence of operations against the memory backend, collecting the
results in order. -/
def memRun (m : Store) : List StoreOp → Store × List (Option JobRecord)
  | [] => (m, [])
  | op :: ops =>
    let (m1, out) := memStep m op
    let (m2, outs) := memRun m1 ops
    (m2, out :: outs)

/-- Run a sequence of operations against the Redis backend, collecting the
results in order. -/
def redisRun (r : Store) : List StoreOp → Store × List (Option JobRecord)
  | [] => (r, [])
  | op :: ops =>
    let (r1, out) := redisStep r op
    let (r2, outs) := redisRun r1 ops
    (r2, out :: outs)

/-- The abstract record state of a backend is what `get` observes at each
job id; two backends agree when every id reads the same record. -/
def Agrees (m r : Store) : Prop :=
  ∀ video_id : String, Redis.get_job r video_id = Memory.get_job m video_id

/-- `JobManager.__init__` outcome (lines 64-84), with the connection attempt
(`redis.from_url` + `ping`) abstracted by `ping_ok`.  The `try` block catches
any connection failure, logs, and clears `use_redis`; the constructor always
returns a manager (`Except.ok`), never propagates the failure. -/
def jobManagerInit (redis_url : Option String) (ping_ok : Bool) :
    Except String Bool :=
  match redis_url with
  | none => .ok false
  | some _ => if ping_ok then .ok true else .ok false

/-! System state: the memory-backend store, the local filesystem (a list of
existing paths), an instrumentation trace of the side effects the endpoint
code performs (store status writes and `os.remove` calls), and the FastAPI
background-task queue (`BackgroundTasks.add_task` registers work that runs
only after the response is returned). -/

/-- One observable side effect, recorded in program order. -/
inductive Event where
  | statusUpdated (video_id status : String)
  | fileDeleted (path : String)
  | fileDeletionFailed (video_id : String)
deriving Repr, DecidableEq

/-- A background task registered by `background_tasks.add_task`
(lines 350-356): the arguments of the deferred `background_process_video`. -/
structure PendingTask where
  video_id : String
  organization_id : String
  input_path : String
  output_path : String
deriving Repr, DecidableEq

/-- Whole-system state for the endpoint layer (memory backend). -/
structure SysState where
  store : Store
  fs : List String
  events : List Event
  pending : List PendingTask
deriving Repr, DecidableEq

/-- `os.path.exists p` on the modelled filesystem. -/
def fsExists (fs : List String) (p : String) : Bool :=
  fs.contains p

/-- `os.remove p`: afterwards the path does not exist. -/
def fsRemove (fs : List String) (p : String) : List String :=
  fs.filter (fun q => !(q == p))

/-- A `job_manager.update_status` call made by endpoint code: store update
plus an instrumentation event marking where in program order it happened. -/
def sysUpdateStatus (s : SysState) (video_id status : String)
    (extra_fields : ExtraFields) : SysState :=
  { s with store := Memory.update_status s.store video_id status extra_fields
           events := s.events ++ [.statusUpdated video_id status] }

/-- Second half of `delete_physical_files`: the `os.remove(output_path)`
guarded by `os.path.exists` (lines 169-170), still inside the same `try`;
`remove_fails` is the oracle for an `OSError` raised by `os.remove`, which
the `except` at line 172 catches and logs. -/
def deleteOutputFile (remove_fails : String → Bool) (video_id output_path : String)
    (s : SysState) : SysState :=
  if fsExists s.fs output_path then
    if remove_fails output_path then
      { s with events := s.events ++ [.fileDeletionFailed video_id] }
    else
      { s with fs := fsRemove s.fs output_path
               events := s.events ++ [.fileDeleted output_path] }
  else s

/-- `delete_physical_files` (lines 165-173): best-effort removal of the raw
and compressed files inside one `try`; a failure on the first removal skips
the second; errors are logged (`file_deletion_failed`), never raised. -/
def delete_physical_files (remove_fails : String → Bool)
    (video_id input_path output_path : String) (s : SysState) : SysState :=
  if fsExists s.fs input_path then
    if remove_fails input_path then
      { s with events := s.events ++ [.fileDeletionFailed video_id] }
    else
      deleteOutputFile remove_fails video_id output_path
        { s with fs := fsRemove s.fs input_path
                 events := s.events ++ [.fileDeleted input_path] }
  else deleteOutputFile remove_fails video_id output_path s

/-- Response of the `/video/confirm` endpoint. -/
inductive ConfirmResult where
  | unauthorized
  | notFound
  | notReady
  | completed (video_id : String)
deriving Repr, DecidableEq

/-- `confirm_video` (lines 361-391): auth check; 404 when the job is
unknown; idempotent success on `completed`; 400 (`NotReady`) on `queued` or
`processing`; otherwise mark the job `completed` and then best-effort delete
the physical files, in that program order. -/
def confirm_video (remove_fails : String → Bool) (s : SysState)
    (video_id x_internal_service_key : String) : ConfirmResult × SysState :=
  if x_internal_service_key ≠ INTERNAL_SERVICE_KEY then (.unauthorized, s)
  else
    match Memory.get_job s.store video_id with
    | none => (.notFound, s)
    | some job =>
      if job.status = "completed" then (.completed video_id, s)
      else if job.status = "queued" ∨ job.status = "processing" then (.notReady, s)
      else
        let s1 := sysUpdateStatus s video_id "completed" {}
        let s2 := delete_physical_files remove_fails video_id
          job.file_path job.compressed_path s1
        (.completed video_id, s2)

/-- Result of the `send_to_lms` retry loop: overall outcome, number of
delivery attempts made, and the `time.sleep` intervals in order. -/
structure SendResult where
  success : Bool
  attempts : Nat
  waits : List Nat
deriving Repr, DecidableEq

/-- The `for attempt in range(1, retries + 1)` loop of `send_to_lms`
(lines 224-245), entered at `attempt` with current `backoff`.  `outcome a`
is whether attempt `a` receives HTTP 200 (any exception or non-200 status
is a failed attempt); on failure with attempts remaining the loop sleeps
`backoff` then doubles it. -/
def send_loop (outcome : Nat → Bool) (retries attempt backoff : Nat) : SendResult :=
  if attempt > retries then { success := false, attempts := attempt - 1, waits := [] }
  else if outcome attempt then { success := true, attempts := attempt, waits := [] }
  else if h : attempt < retries then
    let r := send_loop outcome retries (attempt + 1) (backoff * 2)
    { success := r.success, attempts := r.attempts, waits := backoff :: r.waits }
  else { success := false, attempts := attempt, waits := [] }
termination_by retries - attempt
decreasing_by omega

/-- `send_to_lms` with the source's literals generalised to parameters:
the code sets `retries = 3`, `backoff = 1` (lines 219-220) and runs the
attempt loop from attempt 1. -/
def send_to_lms_model (outcome : Nat → Bool) (retries backoff : Nat) : SendResult :=
  send_loop outcome retries 1 backoff

/-- `send_to_lms` exactly as configured in the source (lines 217-247). -/
def send_to_lms (outcome : Nat → Bool) : SendResult :=
  send_to_lms_model outcome 3 1

/-- `background_process_video` after the initial `update_status` call:
compression (`comp_err = some msg` models `compress_video_ffmpeg` raising,
caught at line 272 and recorded as `"failed: " ++ msg`; on success ffmpeg
creates the output file), then delivery, then the final status write
(lines 254-274). -/
def pipeline_rest (comp_err : Option String) (outcome : Nat → Bool)
    (video_id output_path : String) (s : SysState) : SysState :=
  match comp_err with
  | some msg => sysUpdateStatus s video_id ("failed: " ++ msg) {}
  | none =>
    let s1 := { s with fs := if fsExists s.fs output_path then s.fs
                             else s.fs ++ [output_path] }
    if (send_to_lms outcome).success then
      sysUpdateStatus s1 video_id "awaiting_confirmation"
        { compressed_path? := some output_path }
    else
      sysUpdateStatus s1 video_id "failed" {}

/-- `background_process_video` (lines 250-274): mark `processing`, compress,
deliver with retries, record the terminal status. -/
def background_process_video (comp_err : Option String) (outcome : Nat → Bool)
    (video_id output_path : String) (s : SysState) : SysState :=
  pipeline_rest comp_err outcome video_id output_path
    (sysUpdateStatus s video_id "processing" {})

/-- `JobManager.cleanup_stale_memory_jobs` (lines 139-157): under the lock,
collect the ids of jobs in `awaiting_confirmation` older than the 30-minute
grace period; the method only returns the list, mutating nothing. -/
def cleanup_stale_memory_jobs (store : Store) (now : Nat) : List String :=
  match store with
  | [] => []
  | (vid, job) :: rest =>
    if job.status = "awaiting_confirmation" ∧ now - job.created_at > 30 * 60 then
      vid :: cleanup_stale_memory_jobs rest now
    else cleanup_stale_memory_jobs rest now

/-- The in-memory reap pass run at intake (lines 306-314): call
`cleanup_stale_memory_jobs`, then loop over the stale ids with a body that
is literally `pass`. -/
def reap_pass (s : SysState) (now : Nat) : SysState :=
  let stale_ids := cleanup_stale_memory_jobs s.store now
  stale_ids.foldl (fun acc _sid => acc) s

/-- Response of the `/video/receive` endpoint. -/
inductive ReceiveResult where
  | unauthorized
  | badRequest (detail : String)
  | saveFailed (detail : String)
  | queuedResp (video_id : String)
deriving Repr, DecidableEq

/-- `receive_video` (lines 287-358).  `ext` stands for
`os.path.splitext(file.filename)[1].lower()` computed at the boundary;
`file_id` is the generated `uuid4` string; `size_bytes` is `len(content)`;
`save_ok` is whether writing the upload to disk succeeds; `now` is
`time.time()`.  Note the size check sits inside the `try`, so its
`HTTPException` is caught and re-raised as a 500 `File save failed` error. -/
def receive_video (s : SysState) (video_id organization_id filename ext : String)
    (size_bytes : Nat) (save_ok : Bool) (file_id : String) (now : Nat)
    (x_internal_service_key : String) : ReceiveResult × SysState :=
  if x_internal_service_key ≠ INTERNAL_SERVICE_KEY then (.unauthorized, s)
  else if filename = "" then (.badRequest "Filename missing", s)
  else if ¬ (ext ∈ ALLOWED_VIDEO_EXTENSIONS) then
    (.badRequest "Unsupported video format", s)
  else
    let s0 := reap_pass s now
    let input_path := VIDEO_DIR ++ "/" ++ file_id ++ "_raw" ++ ext
    let output_path := VIDEO_DIR ++ "/" ++ file_id ++ "_720p" ++ ext
    if size_bytes > MAX_VIDEO_SIZE_MB * 1024 * 1024 then
      (.saveFailed "File too large", s0)
    else if ¬ save_ok then (.saveFailed "write error", s0)
    else
      let job_data : JobRecord :=
        { status := "queued", file_path := input_path, compressed_path := ""
          created_at := now, video_id := video_id, org_id := organization_id }
      let s1 := { s0 with fs := s0.fs ++ [input_path] }
      let s2 := { s1 with store := Memory.set_job s1.store video_id job_data }
      let s3 := { s2 with pending := s2.pending ++
        [{ video_id := video_id, organization_id := organization_id
           input_path := input_path, output_path := output_path }] }
      (.queuedResp video_id, s3)

/-! Heap model of the in-memory backend, for the copy semantics of
`get_job` (line 107): Python dict *objects* live on a heap (addresses are
indices into `cells`), `memory_store` maps each job id to the address of its
record object, and `.copy()` allocates a fresh object with the same
contents.  A caller mutating the returned object writes to the fresh
address, never to a stored one. -/

/-- Lookup in the id-to-address dict. -/
def addrGet (s : List (String × Nat)) (k : String) : Option Nat :=
  match s with
  | [] => none
  | (k1, a) :: rest => if k1 = k then some a else addrGet rest k

/-- The in-memory backend with object identity made explicit. -/
structure MemBackend where
  cells : List JobRecord
  memory_store : List (String × Nat)
deriving Repr

/-- The record currently stored for a job id, read through its address. -/
def storedRecord (m : MemBackend) (video_id : String) : Option JobRecord :=
  (addrGet m.memory_store video_id).bind (fun a => m.cells[a]?)

/-- Memory branch of `JobManager.get_job` (line 107) with object identity:
`self.memory_store.get(video_id, \x7b\x7d).copy() if video_id in
self.memory_store else None` — when present, allocate a fresh cell holding a
copy of the stored record and return its address. -/
def get_job_heap (m : MemBackend) (video_id : String) : Option Nat × MemBackend :=
  match addrGet m.memory_store video_id with
  | none => (none, m)
  | some a =>
    (some m.cells.length, { m with cells := m.cells ++ [m.cells.getD a default] })

/-- A caller mutating the dict object at address `a` in place. -/
def heapWrite (m : MemBackend) (a : Nat) (r : JobRecord) : MemBackend :=
  { m with cells := m.cells.set a r }

/-- Well-formedness: every stored address points into the heap. -/
def WfMem (m : MemBackend) : Prop :=
  ∀ p ∈ m.memory_store, p.2 < m.cells.length

/-! State machine of one job's lifecycle (dispatcher pipeline interleaved
with confirm calls), for the status-transition invariant.  The dispatcher
runs exactly once per submitted job, split into its two store writes:
the `processing` mark (line 252) and the terminal write (lines 265-274);
`confirm_video` may run at any point. -/

/-- How far the one background task for this job has run. -/
inductive DispPhase where
  | notStarted
  | started
  | done
deriving Repr, DecidableEq

/-- One job's view of the system: the state, the background-task arguments,
and the dispatcher's progress. -/
structure World where
  sys : SysState
  task : PendingTask
  phase : DispPhase

/-- The status field currently stored for a job, as `query` reports it. -/
def statusOf (s : SysState) (video_id : String) : Option String :=
  (Memory.get_job s.store video_id).map (fun j => j.status)

/-- A terminal failure status as the code writes it: the literal `"failed"`
(line 268) or `"failed: " ++ message` (line 274). -/
def FailedLike (st : String) : Prop :=
  st = "failed" ∨ ∃ msg, st = "failed: " ++ msg

/-- Atomic system steps that touch a submitted job's record: the two
dispatcher writes in order, and a confirm call with any key and any
deletion-failure oracle. -/
inductive WStep : World → World → Prop where
  | start (w : World) : w.phase = .notStarted →
      WStep w { w with
        sys := sysUpdateStatus w.sys w.task.video_id "processing" {}
        phase := .started }
  | finish (w : World) (comp_err : Option String) (outcome : Nat → Bool) :
      w.phase = .started →
      WStep w { w with
        sys := pipeline_rest comp_err outcome w.task.video_id w.task.output_path w.sys
        phase := .done }
  | confirmCall (w : World) (remove_fails : String → Bool) (key : String) :
      WStep w { w with
        sys := (confirm_video remove_fails w.sys w.task.video_id key).2 }

/-- Invariant tying the dispatcher's progress to the stored status. -/
def PhaseInv : DispPhase → Option String → Prop
  | .notStarted, st => st = some "queued"
  | .started, st => st = some "processing"
  | .done, st =>
    st = some "awaiting_confirmation" ∨ st = some "completed" ∨
    ∃ v, st = some v ∧ FailedLike v

/-- The whole-world invariant. -/
def StatusInv (w : World) : Prop :=
  PhaseInv w.phase (statusOf w.sys w.task.video_id)

/-- The status transitions the code actually performs (the spec's chain,
except that `confirm_video` also moves a failed record to `completed` and
failure statuses may carry a message). -/
inductive AllowedStep : String → String → Prop where
  | queuedToProcessing : AllowedStep "queued" "processing"
  | processingToAwaiting : AllowedStep "processing" "awaiting_confirmation"
  | processingToFailed (st : String) : FailedLike st → AllowedStep "processing" st
  | awaitingToCompleted : AllowedStep "awaiting_confirmation" "completed"
  | failedToCompleted (st : String) : FailedLike st → AllowedStep st "completed"

/-- An event recorded by `delete_physical_files` (as opposed to a status
write). -/
def DelEvent (e : Event) : Prop :=
  (∃ p, e = .fileDeleted p) ∨ (∃ v, e = .fileDeletionFailed v)

/-! Shared concrete sample states for witnesses and counterexamples. -/

/-- A record sitting in `awaiting_confirmation`. -/
def sampleJobAwaiting : JobRecord :=
  { status := "awaiting_confirmation", file_path := "temp_videos/u_raw.mp4"
    compressed_path := "temp_videos/u_720p.mp4", created_at := 100
    video_id := "vid1", org_id := "org1" }

/-- System holding `sampleJobAwaiting` with both its files on disk. -/
def sampleSysAwaiting : SysState :=
  { store := [("vid1", sampleJobAwaiting)]
    fs := ["temp_videos/u_raw.mp4", "temp_videos/u_720p.mp4"]
    events := [], pending := [] }

/-- A record in the terminal `failed` status. -/
def sampleJobFailed : JobRecord :=
  { sampleJobAwaiting with status := "failed" }

/-- System holding `sampleJobFailed` with both its files on disk. -/
def sampleSysFailed : SysState :=
  { sampleSysAwaiting with store := [("vid1", sampleJobFailed)] }

/-- A record freshly queued. -/
def sampleJobQueued : JobRecord :=
  { sampleJobAwaiting with status := "queued", compressed_path := "" }

/-- System holding `sampleJobQueued`. -/
def sampleSysQueued : SysState :=
  { sampleSysAwaiting with
    store := [("vid1", sampleJobQueued)]
    fs := ["temp_videos/u_raw.mp4"] }

/-- The deletion-failure oracle under which no `os.remove` raises. -/
def noFail : String → Bool := fun _ => false

/-- The background-task arguments for the sample job. -/
def sampleTask : PendingTask :=
  { video_id := "vid1", organization_id := "org1"
    input_path := "temp_videos/u_raw.mp4", output_path := "temp_videos/u_720p.mp4" }

/-- A delivery stub that fails on attempts 1 and 2 and succeeds from 3 on. -/
def outcomeThirdTry : Nat → Bool := fun a => decide (3 ≤ a)

/-- A delivery stub that always fails. -/
def outcomeNever : Nat → Bool := fun _ => false

/-- Index of an event in a trace (`List.findIdx`). -/
def eventIdx (tr : List Event) (e : Event) : Nat :=
  tr.findIdx (fun x => x == e)

/-- The job lifecycle world before the dispatcher has run. -/
def sampleWorld0 : World :=
  { sys := sampleSysQueued, task := sampleTask, phase := .notStarted }

/-- `sampleWorld0` after the dispatcher's `processing` mark. -/
def sampleWorld1 : World :=
  { sys := sysUpdateStatus sampleSysQueued "vid1" "processing" {}
    task := sampleTask, phase := .started }

/-- A heap-model backend holding one record. -/
def sampleBackend : MemBackend :=
  { cells := [sampleJobAwaiting], memory_store := [("vid1", 0)] }

/-- A freshly booted system. -/
def emptySys : SysState :=
  { store := [], fs := [], events := [], pending := [] }

/-! Dictionary lemmas. -/

theorem storeGet_set_self (s : Store) (k : String) (v : JobRecord) :
    storeGet (storeSet s k v) k = some v := by
  induction s with
  | nil => simp [storeSet, storeGet]
  | cons hd tl ih =>
    obtain ⟨k1, v1⟩ := hd
    by_cases h : k1 = k
    · simp [storeSet, storeGet, h]
    · simp [storeSet, storeGet, h, ih]

theorem storeGet_set_ne (s : Store) (k k1 : String) (v : JobRecord) (h : k1 ≠ k) :
    storeGet (storeSet s k v) k1 = storeGet s k1 := by
  induction s with
  | nil => simp [storeSet, storeGet, Ne.symm h]
  | cons hd tl ih =>
    obtain ⟨k2, v2⟩ := hd
    by_cases h2 : k2 = k
    · subst h2
      simp [storeSet, storeGet, Ne.symm h]
    · simp [storeSet, storeGet, h2, ih]

theorem storeGet_erase_self (s : Store) (k : String) :
    storeGet (storeErase s k) k = none := by
  induction s with
  | nil => simp [storeErase, storeGet]
  | cons hd tl ih =>
    obtain ⟨k1, v1⟩ := hd
    by_cases h : k1 = k
    · simp [storeErase, storeGet, h, ih]
    · simp [storeErase, storeGet, h, ih]

theorem storeGet_erase_ne (s : Store) (k k1 : String) (h : k1 ≠ k) :
    storeGet (storeErase s k) k1 = storeGet s k1 := by
  induction s with
  | nil => simp [storeErase, storeGet]
  | cons hd tl ih =>
    obtain ⟨k2, v2⟩ := hd
    by_cases h2 : k2 = k
    · subst h2
      simp [storeErase, storeGet, Ne.symm h, ih]
    · simp [storeErase, storeGet, h2, ih]

theorem redisKey_inj {a b : String} (h : redisKey a = redisKey b) : a = b := by
  have hd := congrArg String.data h
  simp only [redisKey, String.data_append] at hd
  exact String.ext (List.append_cancel_left hd)

/-! Backend equivalence. -/

theorem stepAgrees (m r : Store) (h : Agrees m r) (op : StoreOp) :
    (memStep m op).2 = (redisStep r op).2 ∧
      Agrees (memStep m op).1 (redisStep r op).1 := by
  cases op with
  | put vid d =>
    refine ⟨rfl, fun id => ?_⟩
    by_cases hid : id = vid
    · subst hid
      simp [memStep, redisStep, Redis.set_job, Memory.set_job, Redis.get_job,
        Memory.get_job, storeGet_set_self]
    · have hk : redisKey id ≠ redisKey vid := fun hh => hid (redisKey_inj hh)
      simp only [memStep, redisStep, Redis.set_job, Memory.set_job, Redis.get_job,
        Memory.get_job, storeGet_set_ne _ _ _ _ hk, storeGet_set_ne _ _ _ _ hid]
      exact h id
  | get vid => exact ⟨(h vid).symm, h⟩
  | updateStatus vid st e =>
    have hg : storeGet r (redisKey vid) = storeGet m vid := h vid
    cases hm : storeGet m vid with
    | none =>
      refine ⟨rfl, fun id => ?_⟩
      simp only [memStep, redisStep, Memory.update_status, Redis.update_status,
        hm, hg]
      exact h id
    | some data =>
      refine ⟨rfl, fun id => ?_⟩
      by_cases hid : id = vid
      · subst hid
        simp only [memStep, redisStep, Memory.update_status, Redis.update_status,
          hm, hg, Redis.get_job, Memory.get_job]
        simp [storeGet_set_self]
      · have hk : redisKey id ≠ redisKey vid := fun hh => hid (redisKey_inj hh)
        simp only [memStep, redisStep, Memory.update_status, Redis.update_status,
          hm, hg, Redis.get_job, Memory.get_job,
          storeGet_set_ne _ _ _ _ hk, storeGet_set_ne _ _ _ _ hid]
        exact h id
  | del vid =>
    refine ⟨rfl, fun id => ?_⟩
    by_cases hid : id = vid
    · subst hid
      simp [memStep, redisStep, Redis.delete_job, Memory.delete_job, Redis.get_job,
        Memory.get_job, storeGet_erase_self]
    · have hk : redisKey id ≠ redisKey vid := fun hh => hid (redisKey_inj hh)
      simp only [memStep, redisStep, Redis.delete_job, Memory.delete_job,
        Redis.get_job, Memory.get_job,
        storeGet_erase_ne _ _ _ hk, storeGet_erase_ne _ _ _ hid]
      exact h id

theorem runAgrees (ops : List StoreOp) (m r : Store) (h : Agrees m r) :
    (memRun m ops).2 = (redisRun r ops).2 ∧
      Agrees (memRun m ops).1 (redisRun r ops).1 := by
  induction ops generalizing m r with
  | nil => exact ⟨rfl, h⟩
  | cons op ops ih =>
    obtain ⟨ho, ha⟩ := stepAgrees m r h op
    obtain ⟨ho2, ha2⟩ := ih (memStep m op).1 (redisStep r op).1 ha
    constructor
    · show (memStep m op).2 :: (memRun (memStep m op).1 ops).2
        = (redisStep r op).2 :: (redisRun (redisStep r op).1 ops).2
      rw [ho, ho2]
    · exact ha2

/-- C9.  The Redis backend and the in-process memory backend of the Job
Store are observationally equivalent: running any sequence of `put`, `get`,
`updateStatus`, `delete` operations from boot (both stores empty) returns
the same results from both backends and leaves them agreeing on the record
stored at every job id (TTL expiration set aside, as it is not part of the
per-operation semantics). -/
theorem backend_equivalence (ops : List StoreOp) :
    (memRun [] ops).2 = (redisRun [] ops).2 ∧
      Agrees (memRun [] ops).1 (redisRun [] ops).1 :=
  runAgrees ops [] [] (fun _ => rfl)

/-! Boot-time backend selection. -/

/-- C4 (amended).  When a store URL is configured, `JobManager.__init__`
never fails: it returns normally with `use_redis = ping_ok`; in particular a
failing connection attempt silently falls back to the in-process memory
backend instead of aborting startup. -/
theorem init_never_fatal (url : String) (ping_ok : Bool) :
    jobManagerInit (some url) ping_ok = Except.ok ping_ok := by
  cases ping_ok <;> rfl

/-- C4 counterexample.  With a store URL configured and the connection
attempt failing, boot is not fatal: the constructor returns a working
manager in memory mode (`use_redis = false`). -/
theorem init_fallback_counterexample :
    jobManagerInit (some "redis://localhost:6379") false = Except.ok false := rfl

/-! The delivery retry loop. -/

theorem send_loop_all_fail (outcome : Nat → Bool) (d : Nat) :
    ∀ attempt backoff retries : Nat, retries = attempt + d → 1 ≤ attempt →
    (∀ j, attempt ≤ j → j ≤ retries → outcome j = false) →
    send_loop outcome retries attempt backoff =
      { success := false, attempts := retries
        waits := (List.range d).map (fun i => backoff * 2 ^ i) } := by
  induction d with
  | zero =>
    intro attempt backoff retries hr ha hout
    have h1 : ¬ attempt > retries := by omega
    have h2 : ¬ outcome attempt = true := by
      simp [hout attempt le_rfl (by omega)]
    have h3 : ¬ attempt < retries := by omega
    rw [send_loop, if_neg h1, if_neg h2, dif_neg h3]
    simp only [List.range_zero, List.map_nil, SendResult.mk.injEq]
    exact ⟨trivial, by omega, trivial⟩
  | succ d ih =>
    intro attempt backoff retries hr ha hout
    have h1 : ¬ attempt > retries := by omega
    have h2 : outcome attempt = false := hout attempt le_rfl (by omega)
    have h3 : attempt < retries := by omega
    rw [send_loop]
    simp only [h1, if_false, h2, Bool.false_eq_true, h3, dif_pos, if_neg]
    rw [ih (attempt + 1) (backoff * 2) retries (by omega) (by omega)
      (fun j hj1 hj2 => hout j (by omega) hj2)]
    have hw : (List.range (d + 1)).map (fun i => backoff * 2 ^ i)
        = backoff :: (List.range d).map (fun i => backoff * 2 * 2 ^ i) := by
      rw [List.range_succ_eq_map, List.map_cons, List.map_map]
      refine congrArg₂ List.cons (by simp) (List.map_congr_left ?_)
      intro i _
      simp [Function.comp, pow_succ]
      ring
    rw [hw]

theorem send_loop_first_success (outcome : Nat → Bool) (d : Nat) :
    ∀ attempt backoff retries k : Nat, k = attempt + d → 1 ≤ attempt →
    k ≤ retries → outcome k = true →
    (∀ j, attempt ≤ j → j < k → outcome j = false) →
    send_loop outcome retries attempt backoff =
      { success := true, attempts := k
        waits := (List.range d).map (fun i => backoff * 2 ^ i) } := by
  induction d with
  | zero =>
    intro attempt backoff retries k hk ha hkr hsucc hout
    have hek : k = attempt := by omega
    subst hek
    unfold send_loop
    have h1 : ¬ k > retries := by omega
    simp [h1, hsucc]
  | succ d ih =>
    intro attempt backoff retries k hk ha hkr hsucc hout
    have h1 : ¬ attempt > retries := by omega
    have h2 : outcome attempt = false := hout attempt le_rfl (by omega)
    have h3 : attempt < retries := by omega
    rw [send_loop]
    simp only [h1, if_false, h2, Bool.false_eq_true, h3, dif_pos, if_neg]
    rw [ih (attempt + 1) (backoff * 2) retries k (by omega) (by omega) hkr hsucc
      (fun j hj1 hj2 => hout j (by omega) hj2)]
    have hw : (List.range (d + 1)).map (fun i => backoff * 2 ^ i)
        = backoff :: (List.range d).map (fun i => backoff * 2 * 2 ^ i) := by
      rw [List.range_succ_eq_map, List.map_cons, List.map_map]
      refine congrArg₂ List.cons (by simp) (List.map_congr_left ?_)
      intro i _
      simp [Function.comp, pow_succ]
      ring
    rw [hw]

/-- C5.  The `send_to_lms` retry loop with maximum attempt count `N` and
initial backoff `b0`: it returns success at the first successful attempt
`k`, having slept the doubling intervals `b0, 2*b0, ...` (`k - 1` of them);
and when all `N` attempts fail it returns overall failure after exactly `N`
attempts and exactly `N - 1` doubling waits. -/
theorem send_retry_policy (outcome : Nat → Bool) (N b0 k : Nat) :
    (1 ≤ k → k ≤ N → outcome k = true →
      (∀ j, 1 ≤ j → j < k → outcome j = false) →
      send_to_lms_model outcome N b0 =
        { success := true, attempts := k
          waits := (List.range (k - 1)).map (fun i => b0 * 2 ^ i) }) ∧
    (1 ≤ N → (∀ j, 1 ≤ j → j ≤ N → outcome j = false) →
      send_to_lms_model outcome N b0 =
        { success := false, attempts := N
          waits := (List.range (N - 1)).map (fun i => b0 * 2 ^ i) }) := by
  constructor
  · intro hk hkN hsucc hout
    exact send_loop_first_success outcome (k - 1) 1 b0 N k (by omega) le_rfl hkN
      hsucc (fun j hj1 hj2 => hout j hj1 hj2)
  · intro hN hout
    exact send_loop_all_fail outcome (N - 1) 1 b0 N (by omega) le_rfl
      (fun j hj1 hj2 => hout j hj1 hj2)

/-- C5 witness: a sink that fails twice then succeeds reaches success after
exactly 3 attempts with waits `b0, 2*b0` (here `b0 = 5`); a sink that always
fails exhausts 4 attempts with waits `7, 14, 28`. -/
theorem send_retry_policy_witness :
    send_to_lms_model outcomeThirdTry 3 5 =
      { success := true, attempts := 3, waits := [5, 10] } ∧
    send_to_lms_model outcomeNever 4 7 =
      { success := false, attempts := 4, waits := [7, 14, 28] } := by
  constructor
  · have h := (send_retry_policy outcomeThirdTry 3 5 3).1 (by omega) (by omega)
      (by decide)
      (by intro j h1 h2; interval_cases j <;> decide)
    simpa using h
  · have h := (send_retry_policy outcomeNever 4 7 0).2 (by omega)
      (by intro j h1 h2; rfl)
    simpa using h

/-! File deletion helper lemmas. -/

theorem fsExists_iff (fs : List String) (p : String) :
    fsExists fs p = true ↔ p ∈ fs := by
  simp [fsExists, List.elem_iff]

theorem fsRemove_not_mem (fs : List String) (p : String) :
    p ∉ fsRemove fs p := by
  simp [fsRemove, List.mem_filter]

theorem deleteOutputFile_store (rf : String → Bool) (v o : String) (s : SysState) :
    (deleteOutputFile rf v o s).store = s.store := by
  unfold deleteOutputFile
  split
  · split <;> rfl
  · rfl

theorem delete_physical_files_store (rf : String → Bool) (v i o : String)
    (s : SysState) :
    (delete_physical_files rf v i o s).store = s.store := by
  unfold delete_physical_files
  split
  · split
    · rfl
    · rw [deleteOutputFile_store]
  · rw [deleteOutputFile_store]

theorem deleteOutputFile_events (rf : String → Bool) (v o : String) (s : SysState) :
    ∃ tl, (deleteOutputFile rf v o s).events = s.events ++ tl ∧ ∀ e ∈ tl, DelEvent e := by
  unfold deleteOutputFile
  split
  · split
    · refine ⟨[.fileDeletionFailed v], rfl, ?_⟩
      intro e he
      simp only [List.mem_singleton] at he
      subst he
      exact Or.inr ⟨v, rfl⟩
    · refine ⟨[.fileDeleted o], rfl, ?_⟩
      intro e he
      simp only [List.mem_singleton] at he
      subst he
      exact Or.inl ⟨o, rfl⟩
  · exact ⟨[], by simp, by simp⟩

theorem delete_physical_files_events (rf : String → Bool) (v i o : String)
    (s : SysState) :
    ∃ tl, (delete_physical_files rf v i o s).events = s.events ++ tl ∧
      ∀ e ∈ tl, DelEvent e := by
  unfold delete_physical_files
  split
  · split
    · refine ⟨[.fileDeletionFailed v], rfl, ?_⟩
      intro e he
      simp only [List.mem_singleton] at he
      subst he
      exact Or.inr ⟨v, rfl⟩
    · obtain ⟨tl, h1, h2⟩ := deleteOutputFile_events rf v o
        { s with fs := fsRemove s.fs i, events := s.events ++ [.fileDeleted i] }
      refine ⟨.fileDeleted i :: tl, ?_, ?_⟩
      · rw [h1]
        simp
      · intro e he
        rcases List.mem_cons.mp he with he1 | he2
        · subst he1
          exact Or.inl ⟨i, rfl⟩
        · exact h2 e he2
  · exact deleteOutputFile_events rf v o s

theorem deleteOutputFile_fs_sub (rf : String → Bool) (v o : String) (s : SysState) :
    ∀ p, p ∈ (deleteOutputFile rf v o s).fs → p ∈ s.fs := by
  unfold deleteOutputFile
  split
  · split
    · exact fun p hp => hp
    · intro p hp
      simp only [fsRemove, List.mem_filter] at hp
      exact hp.1
  · exact fun p hp => hp

theorem deleteOutputFile_out_not_mem (rf : String → Bool) (v o : String)
    (s : SysState) (h : rf o = false) :
    o ∉ (deleteOutputFile rf v o s).fs := by
  unfold deleteOutputFile
  split
  · rw [if_neg (by simp [h])]
    exact fsRemove_not_mem s.fs o
  · rename_i hex
    intro hmem
    exact hex ((fsExists_iff s.fs o).mpr hmem)

theorem delete_physical_files_both_removed (rf : String → Bool) (v i o : String)
    (s : SysState) (h : ∀ p, rf p = false) :
    i ∉ (delete_physical_files rf v i o s).fs ∧
      o ∉ (delete_physical_files rf v i o s).fs := by
  unfold delete_physical_files
  split
  · rw [if_neg (by simp [h i])]
    constructor
    · intro hmem
      exact absurd (deleteOutputFile_fs_sub rf v o _ i hmem) (fsRemove_not_mem s.fs i)
    · exact deleteOutputFile_out_not_mem rf v o _ (h o)
  · rename_i hex
    constructor
    · intro hmem
      exact hex ((fsExists_iff s.fs i).mpr (deleteOutputFile_fs_sub rf v o s i hmem))
    · exact deleteOutputFile_out_not_mem rf v o s (h o)

/-! Store update lemmas. -/

theorem get_job_update_self (m : Store) (vid st : String) (e : ExtraFields)
    (j : JobRecord) (h : storeGet m vid = some j) :
    storeGet (Memory.update_status m vid st e) vid
      = some (e.apply { j with status := st }) := by
  unfold Memory.update_status
  rw [h]
  exact storeGet_set_self m vid _

theorem statusOf_sysUpdateStatus (s : SysState) (vid st : String) (e : ExtraFields)
    (j : JobRecord) (h : Memory.get_job s.store vid = some j) :
    statusOf (sysUpdateStatus s vid st e) vid = some (e.status?.getD st) := by
  unfold statusOf sysUpdateStatus Memory.get_job
  simp only [Memory.get_job] at h
  rw [get_job_update_self s.store vid st e j h]
  rfl

/-! The confirm operation. -/

/-- C1 (amended).  `confirm_video` on a record whose status is `queued` or
`processing` fails with `NotReady` (HTTP 400) and changes nothing: no file
is deleted and the record keeps its status.  (The spec's claim also listed
`failed` here; the code lets a `failed` record fall through to deletion and
`completed` — see the counterexample.) -/
theorem confirm_not_ready (rf : String → Bool) (s : SysState) (vid : String)
    (job : JobRecord) (hget : Memory.get_job s.store vid = some job)
    (hst : job.status = "queued" ∨ job.status = "processing") :
    confirm_video rf s vid INTERNAL_SERVICE_KEY = (.notReady, s) := by
  unfold confirm_video
  rw [if_neg (by simp)]
  simp only [hget]
  have h1 : ¬ job.status = "completed" := by
    rcases hst with h | h <;> simp [h]
  rw [if_neg h1, if_pos hst]

/-- C1 witness: a queued record is rejected with `NotReady` and the state is
returned untouched. -/
theorem confirm_not_ready_witness :
    Memory.get_job sampleSysQueued.store "vid1" = some sampleJobQueued ∧
    (sampleJobQueued.status = "queued" ∨ sampleJobQueued.status = "processing") ∧
    confirm_video noFail sampleSysQueued "vid1" INTERNAL_SERVICE_KEY
      = (.notReady, sampleSysQueued) :=
  ⟨rfl, Or.inl rfl,
    confirm_not_ready noFail sampleSysQueued "vid1" sampleJobQueued rfl (Or.inl rfl)⟩

/-- C1 counterexample: on a record in status `failed`, `confirm_video` does
not return `NotReady`; it reports completion, rewrites the status to
`completed`, and deletes both files from the filesystem. -/
theorem confirm_failed_counterexample :
    (confirm_video noFail sampleSysFailed "vid1" INTERNAL_SERVICE_KEY).1
      = ConfirmResult.completed "vid1" ∧
    (confirm_video noFail sampleSysFailed "vid1" INTERNAL_SERVICE_KEY).1
      ≠ ConfirmResult.notReady ∧
    statusOf (confirm_video noFail sampleSysFailed "vid1" INTERNAL_SERVICE_KEY).2 "vid1"
      = some "completed" ∧
    (confirm_video noFail sampleSysFailed "vid1" INTERNAL_SERVICE_KEY).2.fs = [] := by
  decide

theorem confirm_proceeds (rf : String → Bool) (s : SysState) (vid : String)
    (job : JobRecord) (hget : Memory.get_job s.store vid = some job)
    (h1 : job.status ≠ "completed") (h2 : job.status ≠ "queued")
    (h3 : job.status ≠ "processing") :
    confirm_video rf s vid INTERNAL_SERVICE_KEY =
      (.completed vid,
        delete_physical_files rf vid job.file_path job.compressed_path
          (sysUpdateStatus s vid "completed" {})) := by
  unfold confirm_video
  rw [if_neg (by simp)]
  simp only [hget]
  rw [if_neg h1, if_neg (not_or.mpr ⟨h2, h3⟩)]

/-- C3 (amended).  `confirm_video` on a record in `awaiting_confirmation`
returns success for every deletion-failure oracle, first transitions the
record to `completed` and then best-effort deletes `inputPath` and
`outputPath` (the status write precedes every deletion event in the trace;
deletion errors are swallowed), and when no deletion error occurs both
paths are absent from the filesystem afterwards.  (The spec claimed the
opposite order: delete first, then transition.) -/
theorem confirm_awaiting (rf : String → Bool) (s : SysState) (vid : String)
    (job : JobRecord) (hget : Memory.get_job s.store vid = some job)
    (hst : job.status = "awaiting_confirmation") :
    (confirm_video rf s vid INTERNAL_SERVICE_KEY).1 = .completed vid ∧
    statusOf (confirm_video rf s vid INTERNAL_SERVICE_KEY).2 vid = some "completed" ∧
    (∃ tl, (confirm_video rf s vid INTERNAL_SERVICE_KEY).2.events
        = s.events ++ Event.statusUpdated vid "completed" :: tl ∧
      ∀ e ∈ tl, DelEvent e) ∧
    ((∀ p, rf p = false) →
      job.file_path ∉ (confirm_video rf s vid INTERNAL_SERVICE_KEY).2.fs ∧
      job.compressed_path ∉ (confirm_video rf s vid INTERNAL_SERVICE_KEY).2.fs) := by
  have hc := confirm_proceeds rf s vid job hget (by simp [hst]) (by simp [hst])
    (by simp [hst])
  rw [hc]
  refine ⟨rfl, ?_, ?_, ?_⟩
  · show statusOf (delete_physical_files rf vid job.file_path job.compressed_path
      (sysUpdateStatus s vid "completed" {})) vid = some "completed"
    unfold statusOf Memory.get_job
    rw [delete_physical_files_store]
    have h := statusOf_sysUpdateStatus s vid "completed" {} job hget
    unfold statusOf Memory.get_job at h
    exact h
  · obtain ⟨tl, h1, h2⟩ := delete_physical_files_events rf vid job.file_path
      job.compressed_path (sysUpdateStatus s vid "completed" {})
    refine ⟨tl, ?_, h2⟩
    rw [h1]
    simp [sysUpdateStatus]
  · intro hrf
    exact delete_physical_files_both_removed rf vid job.file_path
      job.compressed_path _ hrf

/-- C3 witness: confirming the sample awaiting record succeeds, marks it
`completed`, logs the status write before the deletions, and with no
deletion errors both files are gone. -/
theorem confirm_awaiting_witness :
    Memory.get_job sampleSysAwaiting.store "vid1" = some sampleJobAwaiting ∧
    sampleJobAwaiting.status = "awaiting_confirmation" ∧
    ((confirm_video noFail sampleSysAwaiting "vid1" INTERNAL_SERVICE_KEY).1
        = .completed "vid1" ∧
      statusOf (confirm_video noFail sampleSysAwaiting "vid1" INTERNAL_SERVICE_KEY).2 "vid1"
        = some "completed" ∧
      (∃ tl, (confirm_video noFail sampleSysAwaiting "vid1" INTERNAL_SERVICE_KEY).2.events
          = sampleSysAwaiting.events ++ Event.statusUpdated "vid1" "completed" :: tl ∧
        ∀ e ∈ tl, DelEvent e) ∧
      ((∀ p, noFail p = false) →
        sampleJobAwaiting.file_path
            ∉ (confirm_video noFail sampleSysAwaiting "vid1" INTERNAL_SERVICE_KEY).2.fs ∧
        sampleJobAwaiting.compressed_path
            ∉ (confirm_video noFail sampleSysAwaiting "vid1" INTERNAL_SERVICE_KEY).2.fs)) :=
  ⟨rfl, rfl, confirm_awaiting noFail sampleSysAwaiting "vid1" sampleJobAwaiting rfl rfl⟩

/-- C3 counterexample: in the trace of a confirm on an awaiting record, the
`completed` status write occurs strictly before each file deletion, so the
claimed order (delete both files, then transition) is false. -/
theorem confirm_order_counterexample :
    (confirm_video noFail sampleSysAwaiting "vid1" INTERNAL_SERVICE_KEY).2.events
      = [Event.statusUpdated "vid1" "completed",
         Event.fileDeleted "temp_videos/u_raw.mp4",
         Event.fileDeleted "temp_videos/u_720p.mp4"] ∧
    eventIdx (confirm_video noFail sampleSysAwaiting "vid1" INTERNAL_SERVICE_KEY).2.events
        (Event.statusUpdated "vid1" "completed")
      < eventIdx (confirm_video noFail sampleSysAwaiting "vid1" INTERNAL_SERVICE_KEY).2.events
        (Event.fileDeleted "temp_videos/u_raw.mp4") ∧
    eventIdx (confirm_video noFail sampleSysAwaiting "vid1" INTERNAL_SERVICE_KEY).2.events
        (Event.statusUpdated "vid1" "completed")
      < eventIdx (confirm_video noFail sampleSysAwaiting "vid1" INTERNAL_SERVICE_KEY).2.events
        (Event.fileDeleted "temp_videos/u_720p.mp4") := by
  decide

/-- C7.  Confirm is idempotent: on a record in `awaiting_confirmation`, the
first confirm returns success, and a second confirm (which observes
`completed`) returns success with the state unchanged — so the file
deletion side effect runs at most once across the two calls. -/
theorem confirm_idempotent (rf1 rf2 : String → Bool) (s : SysState) (vid : String)
    (job : JobRecord) (hget : Memory.get_job s.store vid = some job)
    (hst : job.status = "awaiting_confirmation") :
    (confirm_video rf1 s vid INTERNAL_SERVICE_KEY).1 = .completed vid ∧
    confirm_video rf2 (confirm_video rf1 s vid INTERNAL_SERVICE_KEY).2 vid
        INTERNAL_SERVICE_KEY
      = (.completed vid, (confirm_video rf1 s vid INTERNAL_SERVICE_KEY).2) := by
  have hc := confirm_proceeds rf1 s vid job hget (by simp [hst]) (by simp [hst])
    (by simp [hst])
  rw [hc]
  refine ⟨rfl, ?_⟩
  have hget2 : Memory.get_job (delete_physical_files rf1 vid job.file_path
        job.compressed_path (sysUpdateStatus s vid "completed" {})).store vid
      = some (ExtraFields.apply {} { job with status := "completed" }) := by
    unfold Memory.get_job
    rw [delete_physical_files_store]
    exact get_job_update_self s.store vid "completed" {} job hget
  unfold confirm_video
  rw [if_neg (by simp)]
  simp only [hget2]
  rw [if_pos (show (ExtraFields.apply {} { job with status := "completed" }).status
    = "completed" from rfl)]

/-- C7 witness: two confirms on the sample awaiting record both succeed and
the second one changes nothing. -/
theorem confirm_idempotent_witness :
    Memory.get_job sampleSysAwaiting.store "vid1" = some sampleJobAwaiting ∧
    sampleJobAwaiting.status = "awaiting_confirmation" ∧
    ((confirm_video noFail sampleSysAwaiting "vid1" INTERNAL_SERVICE_KEY).1
        = .completed "vid1" ∧
      confirm_video noFail
          (confirm_video noFail sampleSysAwaiting "vid1" INTERNAL_SERVICE_KEY).2 "vid1"
          INTERNAL_SERVICE_KEY
        = (.completed "vid1",
          (confirm_video noFail sampleSysAwaiting "vid1" INTERNAL_SERVICE_KEY).2)) :=
  ⟨rfl, rfl, confirm_idempotent noFail noFail sampleSysAwaiting "vid1"
    sampleJobAwaiting rfl rfl⟩

/-! Reaper. -/

theorem reap_pass_eq (s : SysState) (now : Nat) : reap_pass s now = s := by
  unfold reap_pass
  generalize cleanup_stale_memory_jobs s.store now = l
  induction l with
  | nil => rfl
  | cons x xs ih => exact ih

theorem cleanup_mem (store : Store) (now : Nat) (vid : String) :
    vid ∈ cleanup_stale_memory_jobs store now ↔
      ∃ job, (vid, job) ∈ store ∧ job.status = "awaiting_confirmation" ∧
        now - job.created_at > 30 * 60 := by
  induction store with
  | nil => simp [cleanup_stale_memory_jobs]
  | cons hd tl ih =>
    obtain ⟨v, j⟩ := hd
    by_cases hc : j.status = "awaiting_confirmation" ∧ now - j.created_at > 30 * 60
    · rw [cleanup_stale_memory_jobs, if_pos hc]
      simp only [List.mem_cons, ih]
      constructor
      · rintro (rfl | ⟨job, hmem, hj⟩)
        · exact ⟨j, Or.inl rfl, hc⟩
        · exact ⟨job, Or.inr hmem, hj⟩
      · rintro ⟨job, (hpair | hmem), hj⟩
        · rw [Prod.mk.injEq] at hpair
          exact Or.inl hpair.1
        · exact Or.inr ⟨job, hmem, hj⟩
    · rw [cleanup_stale_memory_jobs, if_neg hc]
      rw [ih]
      simp only [List.mem_cons]
      constructor
      · rintro ⟨job, hmem, hj⟩
        exact ⟨job, Or.inr hmem, hj⟩
      · rintro ⟨job, (hpair | hmem), hj⟩
        · rw [Prod.mk.injEq] at hpair
          obtain ⟨rfl, rfl⟩ := hpair
          exact absurd hj hc
        · exact ⟨job, hmem, hj⟩

/-- C6 (amended).  The in-memory reap pass run at intake identifies exactly
the records that sat in `awaiting_confirmation` beyond the 30-minute grace
period — but it removes none of them from the store and deletes no files:
the whole pass leaves the system state unchanged (its processing loop is
literally `pass`). -/
theorem reaper_scan_only (s : SysState) (now : Nat) :
    reap_pass s now = s ∧
    ∀ vid, vid ∈ cleanup_stale_memory_jobs s.store now ↔
      ∃ job, (vid, job) ∈ s.store ∧ job.status = "awaiting_confirmation" ∧
        now - job.created_at > 30 * 60 :=
  ⟨reap_pass_eq s now, fun vid => cleanup_mem s.store now vid⟩

/-- C6 counterexample: a record aged 3900 seconds past creation (well beyond
the 1800-second grace period) in `awaiting_confirmation` is identified as
stale but is still in the store after the reap pass, and the filesystem is
untouched — contradicting the claim that it is removed and its files
deleted. -/
theorem reaper_counterexample :
    cleanup_stale_memory_jobs sampleSysAwaiting.store 4000 = ["vid1"] ∧
    reap_pass sampleSysAwaiting 4000 = sampleSysAwaiting ∧
    Memory.get_job (reap_pass sampleSysAwaiting 4000).store "vid1"
      = some sampleJobAwaiting ∧
    (reap_pass sampleSysAwaiting 4000).fs = sampleSysAwaiting.fs := by
  decide

/-! Intake. -/

/-- C8.  A valid submit call (correct key, non-empty filename, allowed
extension, size within bounds, successful save) creates a record with
`status = queued` and `createdAt = now`, stores it under the caller-supplied
`video_id`, registers the background pipeline task without running it (the
events trace is untouched and the record is still `queued` when the call
returns), and immediately returns the acceptance response carrying the job
id. -/
theorem receive_video_accepts (s : SysState) (vid org filename ext : String)
    (size_bytes : Nat) (file_id : String) (now : Nat)
    (hfn : filename ≠ "") (hext : ext ∈ ALLOWED_VIDEO_EXTENSIONS)
    (hsize : size_bytes ≤ MAX_VIDEO_SIZE_MB * 1024 * 1024) :
    receive_video s vid org filename ext size_bytes true file_id now
        INTERNAL_SERVICE_KEY
      = (.queuedResp vid,
        { store := Memory.set_job s.store vid
            { status := "queued"
              file_path := VIDEO_DIR ++ "/" ++ file_id ++ "_raw" ++ ext
              compressed_path := "", created_at := now
              video_id := vid, org_id := org }
          fs := s.fs ++ [VIDEO_DIR ++ "/" ++ file_id ++ "_raw" ++ ext]
          events := s.events
          pending := s.pending ++
            [{ video_id := vid, organization_id := org
               input_path := VIDEO_DIR ++ "/" ++ file_id ++ "_raw" ++ ext
               output_path := VIDEO_DIR ++ "/" ++ file_id ++ "_720p" ++ ext }] }) ∧
    Memory.get_job (receive_video s vid org filename ext size_bytes true file_id
        now INTERNAL_SERVICE_KEY).2.store vid
      = some { status := "queued"
               file_path := VIDEO_DIR ++ "/" ++ file_id ++ "_raw" ++ ext
               compressed_path := "", created_at := now
               video_id := vid, org_id := org } := by
  have hmain : receive_video s vid org filename ext size_bytes true file_id now
      INTERNAL_SERVICE_KEY
    = (.queuedResp vid,
      { store := Memory.set_job s.store vid
          { status := "queued"
            file_path := VIDEO_DIR ++ "/" ++ file_id ++ "_raw" ++ ext
            compressed_path := "", created_at := now
            video_id := vid, org_id := org }
        fs := s.fs ++ [VIDEO_DIR ++ "/" ++ file_id ++ "_raw" ++ ext]
        events := s.events
        pending := s.pending ++
          [{ video_id := vid, organization_id := org
             input_path := VIDEO_DIR ++ "/" ++ file_id ++ "_raw" ++ ext
             output_path := VIDEO_DIR ++ "/" ++ file_id ++ "_720p" ++ ext }] }) := by
    unfold receive_video
    rw [if_neg (by simp), if_neg hfn, if_neg (not_not_intro hext), reap_pass_eq,
      if_neg (by omega), if_neg (by simp)]
  refine ⟨hmain, ?_⟩
  rw [hmain]
  exact storeGet_set_self s.store vid _

/-- C8 witness: a concrete valid submit on a fresh system stores the queued
record under the supplied id. -/
theorem receive_video_accepts_witness :
    ("clip.mp4" : String) ≠ "" ∧ ".mp4" ∈ ALLOWED_VIDEO_EXTENSIONS ∧
    (0 : Nat) ≤ MAX_VIDEO_SIZE_MB * 1024 * 1024 ∧
    Memory.get_job (receive_video emptySys "vid9" "org1" "clip.mp4" ".mp4" 0 true
        "u" 42 INTERNAL_SERVICE_KEY).2.store "vid9"
      = some { status := "queued", file_path := "temp_videos/u_raw.mp4"
               compressed_path := "", created_at := 42
               video_id := "vid9", org_id := "org1" } :=
  ⟨by decide, by decide, by decide,
    (receive_video_accepts emptySys "vid9" "org1" "clip.mp4" ".mp4" 0 "u" 42
      (by decide) (by decide) (by decide)).2⟩

/-! The status state machine. -/

theorem confirm_status_effect (rf : String → Bool) (s : SysState) (vid key : String) :
    (confirm_video rf s vid key).2 = s ∨
    (∃ job, Memory.get_job s.store vid = some job ∧
      job.status ≠ "completed" ∧ job.status ≠ "queued" ∧ job.status ≠ "processing" ∧
      statusOf (confirm_video rf s vid key).2 vid = some "completed") := by
  unfold confirm_video
  by_cases hk : key ≠ INTERNAL_SERVICE_KEY
  · rw [if_pos hk]
    exact Or.inl rfl
  · rw [if_neg hk]
    cases hg : Memory.get_job s.store vid with
    | none =>
      simp only [hg]
      exact Or.inl trivial
    | some job =>
      simp only [hg]
      by_cases h1 : job.status = "completed"
      · rw [if_pos h1]
        exact Or.inl rfl
      · rw [if_neg h1]
        by_cases h2 : job.status = "queued" ∨ job.status = "processing"
        · rw [if_pos h2]
          exact Or.inl rfl
        · rw [if_neg h2]
          push_neg at h2
          refine Or.inr ⟨job, rfl, h1, h2.1, h2.2, ?_⟩
          show statusOf (delete_physical_files rf vid job.file_path
            job.compressed_path (sysUpdateStatus s vid "completed" {})) vid
            = some "completed"
          unfold statusOf Memory.get_job
          rw [delete_physical_files_store]
          have h := statusOf_sysUpdateStatus s vid "completed" {} job hg
          unfold statusOf Memory.get_job at h
          exact h

theorem phaseInv_enum (ph : DispPhase) (st : Option String) (h : PhaseInv ph st) :
    ∀ v, st = some v →
      v ∈ ["queued", "processing", "awaiting_confirmation", "completed"] ∨
        FailedLike v := by
  intro v hv
  cases ph with
  | notStarted =>
    simp only [PhaseInv] at h
    rw [hv] at h
    injection h with h1
    subst h1
    simp
  | started =>
    simp only [PhaseInv] at h
    rw [hv] at h
    injection h with h1
    subst h1
    simp
  | done =>
    simp only [PhaseInv] at h
    rcases h with h | h | ⟨u, hu, hfl⟩
    · rw [hv] at h
      injection h with h1
      subst h1
      simp
    · rw [hv] at h
      injection h with h1
      subst h1
      simp
    · rw [hv] at hu
      injection hu with h1
      subst h1
      exact Or.inr hfl

/-- C2 (amended).  Along every atomic step of the system (the dispatcher's
two store writes in order, and confirm calls interleaved anywhere), the
job's stored status respects the invariant tying it to the dispatcher's
progress, and every status change follows the transition relation
`queued → processing → (awaiting_confirmation | failure status) →
completed`; every reachable status is one of the five enumerated values or
a `"failed: ..."` message.  (Deviations from the spec's claim: the
exception path writes `"failed: " ++ message` rather than the bare
`failed`, and confirm also advances a failure status to `completed`, so
failure statuses are not terminal.) -/
theorem job_status_machine (w w1 : World) (hinv : StatusInv w)
    (hstep : WStep w w1) :
    StatusInv w1 ∧
    (statusOf w1.sys w.task.video_id = statusOf w.sys w.task.video_id ∨
      ∃ a b, statusOf w.sys w.task.video_id = some a ∧
        statusOf w1.sys w.task.video_id = some b ∧ AllowedStep a b) ∧
    (∀ v, statusOf w1.sys w.task.video_id = some v →
      v ∈ ["queued", "processing", "awaiting_confirmation", "completed"] ∨
        FailedLike v) := by
  have htask : w1.task = w.task := by
    cases hstep <;> rfl
  have hgoal : StatusInv w1 ∧
      (statusOf w1.sys w.task.video_id = statusOf w.sys w.task.video_id ∨
        ∃ a b, statusOf w.sys w.task.video_id = some a ∧
          statusOf w1.sys w.task.video_id = some b ∧ AllowedStep a b) := by
    cases hstep with
    | start hph =>
      unfold StatusInv at hinv
      rw [hph] at hinv
      simp only [PhaseInv] at hinv
      have hj := hinv
      unfold statusOf at hj
      obtain ⟨j, hjget, hjst⟩ := Option.map_eq_some'.mp hj
      have hnew : statusOf (sysUpdateStatus w.sys w.task.video_id "processing" {})
          w.task.video_id = some "processing" :=
        statusOf_sysUpdateStatus w.sys w.task.video_id "processing" {} j hjget
      constructor
      · change PhaseInv DispPhase.started
          (statusOf (sysUpdateStatus w.sys w.task.video_id "processing" {})
            w.task.video_id)
        exact hnew
      · exact Or.inr ⟨"queued", "processing", hinv, hnew, .queuedToProcessing⟩
    | finish comp_err outcome hph =>
      unfold StatusInv at hinv
      rw [hph] at hinv
      simp only [PhaseInv] at hinv
      have hj := hinv
      unfold statusOf at hj
      obtain ⟨j, hjget, hjst⟩ := Option.map_eq_some'.mp hj
      cases comp_err with
      | some msg =>
        have hnew : statusOf (pipeline_rest (some msg) outcome w.task.video_id
            w.task.output_path w.sys) w.task.video_id
            = some ("failed: " ++ msg) :=
          statusOf_sysUpdateStatus w.sys w.task.video_id _ {} j hjget
        constructor
        · change PhaseInv DispPhase.done (statusOf (pipeline_rest (some msg)
            outcome w.task.video_id w.task.output_path w.sys) w.task.video_id)
          exact Or.inr (Or.inr ⟨_, hnew, Or.inr ⟨msg, rfl⟩⟩)
        · exact Or.inr ⟨"processing", _, hinv, hnew,
            .processingToFailed _ (Or.inr ⟨msg, rfl⟩)⟩
      | none =>
        cases hsend : (send_to_lms outcome).success with
        | true =>
          have hnew : statusOf (pipeline_rest none outcome w.task.video_id
              w.task.output_path w.sys) w.task.video_id
              = some "awaiting_confirmation" := by
            unfold pipeline_rest
            dsimp only
            rw [if_pos hsend]
            exact statusOf_sysUpdateStatus _ w.task.video_id _ _ j hjget
          constructor
          · change PhaseInv DispPhase.done (statusOf (pipeline_rest none
              outcome w.task.video_id w.task.output_path w.sys) w.task.video_id)
            exact Or.inl hnew
          · exact Or.inr ⟨"processing", _, hinv, hnew, .processingToAwaiting⟩
        | false =>
          have hnew : statusOf (pipeline_rest none outcome w.task.video_id
              w.task.output_path w.sys) w.task.video_id = some "failed" := by
            unfold pipeline_rest
            dsimp only
            rw [if_neg (by simp [hsend])]
            exact statusOf_sysUpdateStatus _ w.task.video_id _ _ j hjget
          constructor
          · change PhaseInv DispPhase.done (statusOf (pipeline_rest none
              outcome w.task.video_id w.task.output_path w.sys) w.task.video_id)
            exact Or.inr (Or.inr ⟨_, hnew, Or.inl rfl⟩)
          · exact Or.inr ⟨"processing", _, hinv, hnew,
              .processingToFailed _ (Or.inl rfl)⟩
    | confirmCall rf key =>
      rcases confirm_status_effect rf w.sys w.task.video_id key with
        heq | ⟨job, hg, hc1, hc2, hc3, hnew⟩
      · constructor
        · change PhaseInv w.phase
            (statusOf (confirm_video rf w.sys w.task.video_id key).2
              w.task.video_id)
          rw [heq]
          exact hinv
        · left
          show statusOf (confirm_video rf w.sys w.task.video_id key).2
            w.task.video_id = statusOf w.sys w.task.video_id
          rw [heq]
      · have hso : statusOf w.sys w.task.video_id = some job.status := by
          unfold statusOf Memory.get_job
          unfold Memory.get_job at hg
          rw [hg]
          rfl
        unfold StatusInv at hinv
        cases hph : w.phase with
        | notStarted =>
          rw [hph] at hinv
          simp only [PhaseInv] at hinv
          rw [hso] at hinv
          injection hinv with h1
          exact absurd h1 hc2
        | started =>
          rw [hph] at hinv
          simp only [PhaseInv] at hinv
          rw [hso] at hinv
          injection hinv with h1
          exact absurd h1 hc3
        | done =>
          rw [hph] at hinv
          simp only [PhaseInv] at hinv
          constructor
          · change PhaseInv DispPhase.done
              (statusOf (confirm_video rf w.sys w.task.video_id key).2
                w.task.video_id)
            exact Or.inr (Or.inl hnew)
          · rcases hinv with hA | hB | ⟨u, hu, hfl⟩
            · exact Or.inr ⟨"awaiting_confirmation", "completed", hA, hnew,
                .awaitingToCompleted⟩
            · rw [hso] at hB
              injection hB with h1
              exact absurd h1 hc1
            · exact Or.inr ⟨u, "completed", hu, hnew, .failedToCompleted u hfl⟩
  refine ⟨hgoal.1, hgoal.2, ?_⟩
  have h1 := hgoal.1
  unfold StatusInv at h1
  rw [htask] at h1
  exact phaseInv_enum w1.phase _ h1

/-- C2 witness: from a freshly queued record, the dispatcher's `processing`
mark is a legal step of the machine. -/
theorem job_status_machine_witness :
    StatusInv sampleWorld0 ∧
    (StatusInv sampleWorld1 ∧
      (statusOf sampleWorld1.sys sampleWorld0.task.video_id
          = statusOf sampleWorld0.sys sampleWorld0.task.video_id ∨
        ∃ a b, statusOf sampleWorld0.sys sampleWorld0.task.video_id = some a ∧
          statusOf sampleWorld1.sys sampleWorld0.task.video_id = some b ∧
          AllowedStep a b) ∧
      (∀ v, statusOf sampleWorld1.sys sampleWorld0.task.video_id = some v →
        v ∈ ["queued", "processing", "awaiting_confirmation", "completed"] ∨
          FailedLike v)) :=
  ⟨rfl, job_status_machine sampleWorld0 sampleWorld1 rfl
    (WStep.start sampleWorld0 rfl)⟩

/-- C2 counterexample: the exception path records the status
`"failed: boom"`, which is none of the five enumerated values; and a
confirm on a record already in the terminal `failed` status still mutates
it to `completed`, so `failed` is not terminal. -/
theorem job_status_counterexample :
    statusOf (background_process_video (some "boom") outcomeNever "vid1"
      "temp_videos/u_720p.mp4" sampleSysQueued) "vid1" = some "failed: boom" ∧
    ("failed: boom" ∉
      ["queued", "processing", "awaiting_confirmation", "completed", "failed"]) ∧
    statusOf (confirm_video noFail sampleSysFailed "vid1"
      INTERNAL_SERVICE_KEY).2 "vid1" = some "completed" ∧
    sampleJobFailed.status = "failed" := by
  decide

/-! Copy semantics of the in-memory `get_job`. -/

theorem addrGet_mem (s : List (String × Nat)) (k : String) (a : Nat)
    (h : addrGet s k = some a) : (k, a) ∈ s := by
  induction s with
  | nil => simp [addrGet] at h
  | cons hd tl ih =>
    obtain ⟨k1, a1⟩ := hd
    by_cases hk : k1 = k
    · subst hk
      simp [addrGet] at h
      subst h
      exact List.mem_cons_self _ _
    · rw [addrGet, if_neg hk] at h
      exact List.mem_cons_of_mem _ (ih h)

/-- C10.  With the in-process memory backend, `get_job` returns a copy:
the id-to-object mapping is untouched, the record observable at every id is
unchanged by the call, `get_job` returns `none` exactly when no record
exists, and when it returns an object, that object holds the stored
record's contents and mutating it afterwards leaves the record stored for
every id unchanged. -/
theorem get_job_returns_copy (m : MemBackend) (vid : String) (hwf : WfMem m) :
    (get_job_heap m vid).2.memory_store = m.memory_store ∧
    (∀ id, storedRecord (get_job_heap m vid).2 id = storedRecord m id) ∧
    (addrGet m.memory_store vid = none → get_job_heap m vid = (none, m)) ∧
    (∀ a, (get_job_heap m vid).1 = some a →
      (get_job_heap m vid).2.cells[a]? = storedRecord m vid ∧
      ∀ r2 id, storedRecord (heapWrite (get_job_heap m vid).2 a r2) id
        = storedRecord m id) := by
  cases haddr : addrGet m.memory_store vid with
  | none =>
    unfold get_job_heap
    rw [haddr]
    refine ⟨rfl, fun id => rfl, fun _ => rfl, ?_⟩
    intro a ha
    simp at ha
  | some a0 =>
    have ha0 : a0 < m.cells.length := hwf _ (addrGet_mem _ _ _ haddr)
    unfold get_job_heap
    rw [haddr]
    refine ⟨rfl, ?_, ?_, ?_⟩
    · intro id
      unfold storedRecord
      cases hid : addrGet m.memory_store id with
      | none => rfl
      | some b =>
        have hb : b < m.cells.length := hwf _ (addrGet_mem _ _ _ hid)
        simp only [Option.bind_eq_bind, Option.some_bind]
        exact List.getElem?_append_left hb
    · intro hnone
      simp at hnone
    · intro a ha
      have ha1 : m.cells.length = a := by simpa using ha
      subst ha1
      constructor
      · show (m.cells ++ [m.cells.getD a0 default])[m.cells.length]?
          = storedRecord m vid
        rw [List.getElem?_concat_length]
        unfold storedRecord
        rw [haddr]
        simp only [Option.bind_eq_bind, Option.some_bind]
        rw [List.getD_eq_getElem?_getD, List.getElem?_eq_getElem ha0]
        rfl
      · intro r2 id
        unfold heapWrite storedRecord
        cases hid : addrGet m.memory_store id with
        | none => rfl
        | some b =>
          have hb : b < m.cells.length := hwf _ (addrGet_mem _ _ _ hid)
          simp only [Option.bind_eq_bind, Option.some_bind]
          rw [List.getElem?_set_ne (show m.cells.length ≠ b by omega)]
          exact List.getElem?_append_left hb

/-- C10 witness: on a concrete backend holding one record, `get_job`
returns a copy with all the frame conditions of the theorem. -/
theorem get_job_returns_copy_witness :
    WfMem sampleBackend ∧
    ((get_job_heap sampleBackend "vid1").2.memory_store
        = sampleBackend.memory_store ∧
      (∀ id, storedRecord (get_job_heap sampleBackend "vid1").2 id
          = storedRecord sampleBackend id) ∧
      (addrGet sampleBackend.memory_store "vid1" = none →
        get_job_heap sampleBackend "vid1" = (none, sampleBackend)) ∧
      (∀ a, (get_job_heap sampleBackend "vid1").1 = some a →
        (get_job_heap sampleBackend "vid1").2.cells[a]?
            = storedRecord sampleBackend "vid1" ∧
        ∀ r2 id, storedRecord
            (heapWrite (get_job_heap sampleBackend "vid1").2 a r2) id
          = storedRecord sampleBackend id)) :=
  ⟨by unfold WfMem; decide, get_job_returns_copy sampleBackend "vid1" (by unfold WfMem; decide)⟩

end VideoCompress
